import Mathlib

/-
Verification of the heliospectra device-discovery and control library.
The Go sources are shallowly embedded: byte slices become `List Nat`,
Go strings become `List Char`, machine-integer conversions are made
explicit with `% 256` (uint8) and the int64 range checks of strconv,
and the two external effectful collaborators (the XML decoder used for
scan replies, and the HTTP transport) are passed in as parameters or
modelled by the data of the request/response that crosses them.
-/

deriving instance DecidableEq for Except

namespace Helio

/-- Characters of a string literal, used to write concrete char lists. -/
def str (s : String) : List Char := s.data

/-- TCP port Heliospectra fixtures listen on (const TCPPort in heliospectra.go). -/
def TCPPort : Nat := 50630

/-- UDP port used by discovery (const UDPPort in heliospectra.go). -/
def UDPPort : Nat := 50632

/-- Command code of an InfoReply packet (commandIDInfoReply in heliospectra.go). -/
def commandIDInfoReply : Nat := 6

/-- Decimal digit characters of `n`, fuel-driven so that it reduces in the
kernel; any fuel above `n` gives the digits of `n`. This is the decimal
rendering that Go's fmt verb d produces for a nonnegative value. -/
def decDigitsAux : Nat → Nat → List Char
  | 0, _ => []
  | fuel + 1, n =>
    if n < 10 then [Char.ofNat (48 + n)]
    else decDigitsAux fuel (n / 10) ++ [Char.ofNat (48 + n % 10)]

/-- Decimal digits of a natural number. -/
def decDigits (n : Nat) : List Char := decDigitsAux (n + 1) n

/-- Left zero padding to width two, as in Go fmt verb 02d. -/
def pad2 (ds : List Char) : List Char :=
  if ds.length < 2 then List.replicate (2 - ds.length) '0' ++ ds else ds

/-- Value of one hexadecimal character (encoding/hex fromHexChar). -/
def hexCharVal (c : Char) : Option Nat :=
  if 48 ≤ c.toNat ∧ c.toNat ≤ 57 then some (c.toNat - 48)
  else if 97 ≤ c.toNat ∧ c.toNat ≤ 102 then some (c.toNat - 97 + 10)
  else if 65 ≤ c.toNat ∧ c.toNat ≤ 70 then some (c.toNat - 65 + 10)
  else none

/-- cmdAsHex from heliospectra.go: format the commandID (a uint8, hence the
`% 256`) with fmt 02d and hex-decode the resulting text into a one-byte
destination. Three-digit renderings (codes 100 to 255) make hex.Decode
return ErrLength, surfaced here as an error as in the Go code path. -/
def cmdAsHex (cmd : Nat) : Except String (List Nat) :=
  match pad2 (decDigits (cmd % 256)) with
  | [a, b] =>
    match hexCharVal a, hexCharVal b with
    | some x, some y => .ok [16 * x + y]
    | _, _ => .error "encoding hex invalid byte"
  | _ => .error "encoding hex odd length"

/-- Bytes of the magic prefix literal ABC321 written by makeUDPPayload. -/
def magicBytes : List Nat := (str "ABC321").map Char.toNat

/-- makeUDPPayload from heliospectra.go: magic, hardware address, command
byte, one reserved zero byte, then for a non-nil data slice the bytes
`uint8(len % 256)` and `uint8(len / 256)` followed by the data, and for a
nil data slice the two literal zero bytes. The uint8 conversions are the
explicit `% 256`. -/
def makeUDPPayload (cmd : Nat) (mac : List Nat) (data : Option (List Nat)) :
    Except String (List Nat) :=
  match cmdAsHex cmd with
  | .error e => .error e
  | .ok cmdHex =>
    match data with
    | some d => .ok (magicBytes ++ mac ++ cmdHex ++ 0 :: (d.length % 256) :: (d.length / 256 % 256) :: d)
    | none => .ok (magicBytes ++ mac ++ cmdHex ++ [0, 0, 0])

/-- DeviceInfo from heliospectra.go; IP addresses are byte lists. -/
structure DeviceInfo where
  MAC : String
  DHCP : Bool
  IPAddr : List Nat
  NetMask : String
  Gateway : List Nat
  DNS1 : List Nat
  DNS2 : List Nat
  FwVersion : String
  SerialNum : String
deriving DecidableEq

/-- One received UDP datagram: the sender's source port and the read bytes. -/
structure Datagram where
  srcPort : Nat
  data : List Nat
deriving DecidableEq

/-- Filter applied by udpScanReceive to one datagram, with the xml.Unmarshal
collaborator passed in as `xd`. Mirrors the guard sequence of the Go loop:
wrong source port, short datagram, wrong command byte at offset 12, then
the XML decode of the bytes from offset 16 on. -/
def acceptDatagram (xd : List Nat → Option DeviceInfo) (d : Datagram) :
    Option DeviceInfo :=
  if d.srcPort ≠ UDPPort then none
  else if d.data.length < 17 then none
  else if d.data.getD 12 0 ≠ commandIDInfoReply then none
  else xd (d.data.drop 16)

/-- The DeviceInfos delivered on the channel by udpScanReceive for a given
sequence of received datagrams, in arrival order. -/
def udpScanReceive (xd : List Nat → Option DeviceInfo) (ds : List Datagram) :
    List DeviceInfo :=
  ds.filterMap (acceptDatagram xd)

/-- Aggregation loop of ScanUDP: `seen` is the resultSerials set, devices
with an unseen serial are appended. -/
def scanAggregate (seen : List String) : List DeviceInfo → List DeviceInfo
  | [] => []
  | di :: rest =>
    if di.SerialNum ∈ seen then scanAggregate seen rest
    else di :: scanAggregate (di.SerialNum :: seen) rest

/-- Scan results of ScanUDP for a given datagram sequence: the receive
filter followed by serial-number de-duplication. -/
def ScanUDP (xd : List Nat → Option DeviceInfo) (ds : List Datagram) :
    List DeviceInfo :=
  scanAggregate [] (udpScanReceive xd ds)

/-- WavelengthDescription from device.go; Go strings are char lists here. -/
structure WavelengthDescription where
  Number : Nat
  Wavelength : List Char
  Power : List Char
deriving DecidableEq

/-- Digit-run parser behind strconv: consumes decimal digits, failing on the
first non-digit character. -/
def parseDigitsAux (acc : Nat) : List Char → Option Nat
  | [] => some acc
  | c :: rest =>
    if 48 ≤ c.toNat ∧ c.toNat ≤ 57 then parseDigitsAux (acc * 10 + (c.toNat - 48)) rest
    else none

/-- Digits-with-sign part of strconv.ParseInt on a 64 bit platform: an empty
digit run or a non-digit is a syntax error, and magnitudes beyond int64
are a range error (both are non-nil errors to the caller of Atoi). -/
def goAtoiFromDigits (neg : Bool) (digits : List Char) : Except String Int :=
  match digits with
  | [] => .error "invalid syntax"
  | _ :: _ =>
    match parseDigitsAux 0 digits with
    | none => .error "invalid syntax"
    | some v =>
      if neg then
        if v ≤ 2 ^ 63 then .ok (-(v : Int)) else .error "value out of range"
      else
        if v < 2 ^ 63 then .ok (v : Int) else .error "value out of range"

/-- strconv.Atoi: optional sign, then decimal digits. -/
def goAtoi (s : List Char) : Except String Int :=
  match s with
  | [] => .error "invalid syntax"
  | c :: rest =>
    if c = '-' then goAtoiFromDigits true rest
    else if c = '+' then goAtoiFromDigits false rest
    else goAtoiFromDigits false (c :: rest)

/-- Decimal rendering of a Go int by fmt verb d. -/
def intRender (n : Int) : List Char :=
  if n < 0 then '-' :: decDigits (-n).toNat else decDigits n.toNat

/-- strings.TrimRight(s, comma): remove every trailing comma. -/
def trimRightComma (s : List Char) : List Char :=
  (s.reverse.dropWhile (fun c => c == ',')).reverse

/-- strings.Split with a one-character separator: splitting the empty list
yields one empty segment, exactly as in Go. -/
def splitGo (sep : Char) : List Char → List (List Char)
  | [] => [[]]
  | c :: rest =>
    match splitGo sep rest with
    | [] => [[c]]
    | seg :: segs => if c = sep then [] :: seg :: segs else (c :: seg) :: segs

/-- Body of the per-segment step of WavelengthList.UnmarshalXML: split on
colons, require exactly three fields, Atoi the first and truncate it to a
uint8 (the `% 256`), keep the other two fields verbatim. -/
def parseSegment (part : List Char) : Except String WavelengthDescription :=
  if (splitGo ':' part).length = 3 then
    match goAtoi ((splitGo ':' part).getD 0 []) with
    | .error e => .error e
    | .ok n => .ok ⟨(n % 256).toNat, (splitGo ':' part).getD 1 [], (splitGo ':' part).getD 2 []⟩
  else .error "invalid WavelengthList"

/-- Segment loop of WavelengthList.UnmarshalXML, returning the decoded list
or the first error. -/
def decodeSegments : List (List Char) → Except String (List WavelengthDescription)
  | [] => .ok []
  | part :: rest =>
    match parseSegment part with
    | .error e => .error e
    | .ok d =>
      match decodeSegments rest with
      | .error e => .error e
      | .ok ds => .ok (d :: ds)

/-- WavelengthList.UnmarshalXML applied to the character data of the
wavelengths element: trim trailing commas, split on commas, decode every
segment. -/
def decodeWavelengthList (val : List Char) : Except String (List WavelengthDescription) :=
  decodeSegments (splitGo ',' (trimRightComma val))

/-- Slice of the Diagnostic model reached by the WavelengthList decode; the
other Diagnostic fields decode permissively per-field and cannot fail, so
the wavelengths element alone decides success of the surrounding decode. -/
structure DiagnosticModel where
  wavelengths : List WavelengthDescription
deriving DecidableEq

/-- Outcome of Device.Diagnostic as far as the XML body decode goes: an
error from WavelengthList.UnmarshalXML aborts the whole Diagnostic decode. -/
def decodeDiagnostic (wavelengthsText : List Char) : Except String DiagnosticModel :=
  match decodeWavelengthList wavelengthsText with
  | .error e => .error e
  | .ok wl => .ok ⟨wl⟩

/-- Discriminator for success of an Except value. -/
def isOkE {ε α : Type} : Except ε α → Bool
  | .ok _ => true
  | .error _ => false

/-- Query-string building loop of Device.SetIntensities: every value after
the first is preceded by a colon (the `i != 0` check in the Go loop). -/
def encodeIntensities (ints : List Int) : List Char :=
  match ints with
  | [] => []
  | x :: rest => rest.foldl (fun buf y => buf ++ ':' :: intRender y) (intRender x)

/-- Modelled from the spec: a colon-separated decimal string, the spec's
wording for the encoding of the intensity sequence, to be compared with
the code's loop. -/
def colonJoinSpec : List (List Char) → List Char
  | [] => []
  | [x] => x
  | x :: y :: rest => x ++ ':' :: colonJoinSpec (y :: rest)

/-- Tail of a colon join: every element preceded by a colon. -/
def tailJoinColon : List Int → List Char
  | [] => []
  | y :: r => ':' :: intRender y ++ tailJoinColon r

/-- Shape of the single HTTP request issued by a DeviceClient operation. -/
structure HTTPRequestModel where
  method : List Char
  host : List Char
  path : List Char
  query : List (List Char × List Char)
deriving DecidableEq

/-- Request built by Device.SetIntensities: GET, the bare device address as
the URL host (the Go code sets url.URL.Host to d.addr.String() with no
port), path intensity.cgi, and the single query parameter int. -/
def setIntensitiesRequest (addr : List Char) (ints : List Int) : HTTPRequestModel :=
  { method := str "GET"
    host := addr
    path := str "intensity.cgi"
    query := [(str "int", encodeIntensities ints)] }

/-- Status handling of Device.SetIntensities: nil on 200, an unexpected
status code error otherwise. -/
def setIntensitiesOutcome (status : Nat) : Except String Unit :=
  if status = 200 then .ok () else .error "unexpected status code"

/-- C1: for command codes 0 to 99 the emitted command byte is the hex
decoding of the two-digit decimal rendering, 16 * (c / 10) + c % 10, which
coincides with c exactly on codes 0 to 9. -/
theorem cmd_byte_spec : ∀ c : Nat, c ≤ 99 →
    cmdAsHex c = .ok [16 * (c / 10) + c % 10] ∧ (c ≤ 9 → cmdAsHex c = .ok [c]) := by
  have h : ∀ c : Nat, c < 100 →
      cmdAsHex c = .ok [16 * (c / 10) + c % 10] ∧ (c ≤ 9 → cmdAsHex c = .ok [c]) := by
    decide
  intro c hc
  exact h c (by omega)

/-- Witness for C1 at command code 10: the emitted byte is 0x10, not 10. -/
theorem cmd_byte_spec_witness : cmdAsHex 10 = .ok [16] :=
  (cmd_byte_spec 10 (by decide)).1

/-- C5: the sample wavelength list decodes to the two expected
descriptions in order. -/
theorem wavelength_roundtrip_example :
    decodeWavelengthList (str "0:450nm:10.2W,1:660nm:5.2W,") =
      .ok [⟨0, str "450nm", str "10.2W"⟩, ⟨1, str "660nm", str "5.2W"⟩] := by
  rfl

/-- C7 counterexample: on a raw string ending in two consecutive commas the
decode succeeds, because TrimRight removes every trailing comma, refuting
the claim that exactly one is removed and the decode fails. -/
theorem trailing_separator_counterexample :
    decodeWavelengthList (str "0:450nm:10.2W,,") = .ok [⟨0, str "450nm", str "10.2W"⟩] := by
  rfl

/-- C8 counterexample: a negative channel number such as -1 is accepted by
strconv.Atoi and stored truncated to uint8 as 255, refuting the claim that
non-unsigned first fields make the decode fail. -/
theorem channel_negative_counterexample :
    decodeWavelengthList (str "-1:450nm:10.2W") = .ok [⟨255, str "450nm", str "10.2W"⟩] := by
  rfl

/-- C2 counterexample: for a payload of 65536 bytes the high length byte
written by makeUDPPayload is uint8(65536 / 256) = 0, while the claim's
expression len / 256 is 256, so the claimed byte sequence is not emitted
for every payload. -/
theorem payload_len_counterexample :
    makeUDPPayload 0 (List.replicate 6 255) (some (List.replicate 65536 0)) =
      .ok (magicBytes ++ List.replicate 6 255 ++ [0] ++ 0 :: 0 :: 0 :: List.replicate 65536 0)
    ∧ (65536 : Nat) / 256 ≠ 0 := by
  have h0 : cmdAsHex 0 = .ok [0] := rfl
  constructor
  · simp only [makeUDPPayload, h0, List.length_replicate]
  · norm_num

/-- C2 amended: the packet is the magic literal ABC321, the hardware
address, the command byte, a zero byte, the length bytes
len % 256 and len / 256 % 256 (equal to len / 256 whenever the payload is
shorter than 65536 bytes), then the payload verbatim; with no payload the
length bytes are 0, 0 and nothing follows. -/
theorem payload_layout_amended : ∀ (cmd : Nat) (mac : List Nat) (b : Nat) (d : List Nat),
    mac.length = 6 → cmdAsHex cmd = .ok [b] →
    makeUDPPayload cmd mac (some d) =
      .ok (magicBytes ++ mac ++ [b] ++ 0 :: (d.length % 256) :: (d.length / 256 % 256) :: d)
    ∧ makeUDPPayload cmd mac none = .ok (magicBytes ++ mac ++ [b] ++ [0, 0, 0])
    ∧ (d.length < 65536 → d.length / 256 % 256 = d.length / 256)
    ∧ magicBytes = [65, 66, 67, 51, 50, 49] := by
  intro cmd mac b d _ hcmd
  refine ⟨?_, ?_, ?_, rfl⟩
  · simp only [makeUDPPayload, hcmd]
  · simp only [makeUDPPayload, hcmd]
  · intro h
    omega

/-- Witness for C2 amended at command 0, the broadcast address and a three
byte payload. -/
theorem payload_layout_witness :
    makeUDPPayload 0 (List.replicate 6 255) (some [1, 2, 3]) =
      .ok (magicBytes ++ List.replicate 6 255 ++ [0] ++ 0 :: 3 :: 0 :: [1, 2, 3])
    ∧ makeUDPPayload 0 (List.replicate 6 255) none =
      .ok (magicBytes ++ List.replicate 6 255 ++ [0] ++ [0, 0, 0]) := by
  have h := payload_layout_amended 0 (List.replicate 6 255) 0 [1, 2, 3] (by decide) (by decide)
  exact ⟨h.1, h.2.1⟩

/-- C3: a datagram passes the scan filter and contributes a DeviceInfo
exactly when its source port is the discovery port 50632, it is at least 17
bytes long, its byte at offset 12 is the InfoReply code 6, and the bytes
from offset 16 on XML-decode to that DeviceInfo; a datagram rejected by the
filter never changes the scan results. -/
theorem datagram_filter_spec : ∀ (xd : List Nat → Option DeviceInfo) (d : Datagram),
    (∀ di, acceptDatagram xd d = some di ↔
      (d.srcPort = UDPPort ∧ 17 ≤ d.data.length
        ∧ d.data.getD 12 0 = commandIDInfoReply ∧ xd (d.data.drop 16) = some di))
    ∧ (UDPPort = 50632 ∧ commandIDInfoReply = 6)
    ∧ (acceptDatagram xd d = none →
        ∀ pre post, ScanUDP xd (pre ++ d :: post) = ScanUDP xd (pre ++ post)) := by
  intro xd d
  refine ⟨?_, ⟨rfl, rfl⟩, ?_⟩
  · intro di
    unfold acceptDatagram
    split_ifs with h1 h2 h3
    · simp only [reduceCtorEq, false_iff]
      intro hc
      exact h1 hc.1
    · simp only [reduceCtorEq, false_iff]
      intro hc
      omega
    · simp only [reduceCtorEq, false_iff]
      intro hc
      exact h3 hc.2.2.1
    · constructor
      · intro h
        exact ⟨by omega, by omega, by omega, h⟩
      · intro h
        exact h.2.2.2
  · intro h pre post
    simp only [ScanUDP, udpScanReceive, List.filterMap_append, List.filterMap_cons, h]

/-- Witness for C3: a datagram from the wrong source port is dropped and
leaves the scan results unchanged. -/
theorem datagram_filter_spec_witness :
    ScanUDP (fun _ => none) ([] ++ Datagram.mk 0 [] :: []) =
      ScanUDP (fun _ => none) ([] ++ []) :=
  (datagram_filter_spec (fun _ => none) (Datagram.mk 0 [])).2.2 rfl [] []

/-- Devices produced by the aggregation loop never carry a serial that was
already in the seen set it started from. -/
theorem scanAggregate_notMem_seen : ∀ (l : List DeviceInfo) (seen : List String)
    (d : DeviceInfo), d ∈ scanAggregate seen l → d.SerialNum ∉ seen := by
  intro l
  induction l with
  | nil =>
    intro seen d h
    simp only [scanAggregate, List.not_mem_nil] at h
  | cons di rest ih =>
    intro seen d h
    by_cases hs : di.SerialNum ∈ seen
    · rw [scanAggregate, if_pos hs] at h
      exact ih seen d h
    · rw [scanAggregate, if_neg hs] at h
      rcases List.mem_cons.mp h with he | hm
      · rw [he]
        exact hs
      · have hnot := ih (di.SerialNum :: seen) d hm
        intro hc
        exact hnot (List.mem_cons_of_mem _ hc)

/-- The aggregation loop yields pairwise distinct serial numbers. -/
theorem scanAggregate_pairwise : ∀ (l : List DeviceInfo) (seen : List String),
    (scanAggregate seen l).Pairwise (fun a b => a.SerialNum ≠ b.SerialNum) := by
  intro l
  induction l with
  | nil =>
    intro seen
    simp [scanAggregate]
  | cons di rest ih =>
    intro seen
    by_cases hs : di.SerialNum ∈ seen
    · rw [scanAggregate, if_pos hs]
      exact ih seen
    · rw [scanAggregate, if_neg hs]
      refine List.Pairwise.cons ?_ (ih (di.SerialNum :: seen))
      intro b hb hc
      have hnot := scanAggregate_notMem_seen rest (di.SerialNum :: seen) b hb
      exact hnot (by rw [← hc]; exact List.mem_cons_self _ _)

/-- Count of a given serial among the aggregated devices: zero if it was
already seen, otherwise one exactly when some incoming device carries it. -/
theorem scanAggregate_countP : ∀ (l : List DeviceInfo) (seen : List String) (s : String),
    (scanAggregate seen l).countP (fun d => d.SerialNum == s) =
      if s ∈ seen then 0 else if s ∈ l.map DeviceInfo.SerialNum then 1 else 0 := by
  intro l
  induction l with
  | nil =>
    intro seen s
    simp [scanAggregate]
  | cons di rest ih =>
    intro seen s
    by_cases hs : di.SerialNum ∈ seen
    · rw [scanAggregate, if_pos hs, ih seen s]
      by_cases hseen : s ∈ seen
      · simp [hseen]
      · have hne : ¬s = di.SerialNum := by
          intro hc
          exact hseen (hc ▸ hs)
        simp [hseen, List.mem_cons, hne]
    · rw [scanAggregate, if_neg hs, List.countP_cons, ih (di.SerialNum :: seen) s]
      by_cases heq : di.SerialNum = s
      · have hseen : ¬s ∈ seen := by
          intro hc
          exact hs (heq ▸ hc)
        simp [heq, hseen, List.mem_cons]
      · have hne : ¬s = di.SerialNum := fun hc => heq hc.symm
        by_cases hseen : s ∈ seen
        · simp [heq, hne, hseen, List.mem_cons]
        · simp [heq, hne, hseen, List.mem_cons]

/-- C4: the scan result list has pairwise distinct serial numbers, and every
serial delivered by the receive loop appears on exactly one result. -/
theorem scan_dedup_spec : ∀ (xd : List Nat → Option DeviceInfo) (ds : List Datagram),
    (ScanUDP xd ds).Pairwise (fun a b => a.SerialNum ≠ b.SerialNum)
    ∧ ∀ s, s ∈ (udpScanReceive xd ds).map DeviceInfo.SerialNum →
        (ScanUDP xd ds).countP (fun d => d.SerialNum == s) = 1 := by
  intro xd ds
  refine ⟨scanAggregate_pairwise _ _, ?_⟩
  intro s hs
  rw [ScanUDP, scanAggregate_countP]
  simp [hs]

/-- Witness for C4: two InfoReply datagrams carrying the same serial yield
exactly one scan result with that serial. -/
theorem scan_dedup_spec_witness :
    (ScanUDP (fun _ => some (DeviceInfo.mk "" false [] "" [] [] [] "" "abc"))
      [Datagram.mk 50632 (List.replicate 12 0 ++ 6 :: List.replicate 4 0),
        Datagram.mk 50632 (List.replicate 12 0 ++ 6 :: List.replicate 4 0)]).countP
      (fun d => d.SerialNum == "abc") = 1 :=
  (scan_dedup_spec (fun _ => some (DeviceInfo.mk "" false [] "" [] [] [] "" "abc"))
    [Datagram.mk 50632 (List.replicate 12 0 ++ 6 :: List.replicate 4 0),
      Datagram.mk 50632 (List.replicate 12 0 ++ 6 :: List.replicate 4 0)]).2 "abc" (by decide)

/-- A segment whose colon split does not have exactly three fields makes the
per-segment decoder return the invalid WavelengthList error. -/
theorem parseSegment_badFieldCount : ∀ part, (splitGo ':' part).length ≠ 3 →
    parseSegment part = .error "invalid WavelengthList" := by
  intro part h
  unfold parseSegment
  rw [if_neg h]

/-- If any member of a segment list fails with the format error, the whole
segment loop returns some error. -/
theorem decodeSegments_mem_fail : ∀ (l : List (List Char)) (part : List Char),
    part ∈ l → parseSegment part = .error "invalid WavelengthList" →
    ∃ e, decodeSegments l = .error e := by
  intro l
  induction l with
  | nil =>
    intro part h _
    exact absurd h (List.not_mem_nil part)
  | cons hd tl ih =>
    intro part hmem hfail
    rcases List.mem_cons.mp hmem with he | hm
    · refine ⟨"invalid WavelengthList", ?_⟩
      rw [he] at hfail
      simp only [decodeSegments, hfail]
    · cases hp : parseSegment hd with
      | error e => exact ⟨e, by simp only [decodeSegments, hp]⟩
      | ok d =>
        obtain ⟨e, he⟩ := ih part hm hfail
        exact ⟨e, by simp only [decodeSegments, hp, he]⟩

/-- C6: a comma segment splitting into other than three colon fields makes
the whole wavelength-list decode fail, and with it the surrounding
Diagnostic decode, so no partial list reaches the public interface. -/
theorem wavelength_allOrNothing : ∀ (val part : List Char),
    part ∈ splitGo ',' (trimRightComma val) → (splitGo ':' part).length ≠ 3 →
    isOkE (decodeWavelengthList val) = false ∧ isOkE (decodeDiagnostic val) = false := by
  intro val part hmem hlen
  obtain ⟨e, he⟩ :=
    decodeSegments_mem_fail (splitGo ',' (trimRightComma val)) part hmem
      (parseSegment_badFieldCount part hlen)
  constructor
  · rw [decodeWavelengthList, he]
    rfl
  · rw [decodeDiagnostic, decodeWavelengthList, he]
    rfl

/-- Witness for C6: the two-field segment 0:450nm aborts the decode. -/
theorem wavelength_allOrNothing_witness :
    isOkE (decodeWavelengthList (str "0:450nm")) = false
    ∧ isOkE (decodeDiagnostic (str "0:450nm")) = false :=
  wavelength_allOrNothing (str "0:450nm") (str "0:450nm") (by decide) (by decide)

/-- Leading commas are all consumed by the comma dropWhile. -/
theorem dropWhile_comma_replicate : ∀ (k : Nat) (x : List Char),
    (List.replicate k ',' ++ x).dropWhile (fun c => c == ',') =
      x.dropWhile (fun c => c == ',') := by
  intro k
  induction k with
  | zero => intro x; rfl
  | succ n ih =>
    intro x
    rw [List.replicate_succ, List.cons_append, List.dropWhile_cons]
    simp only [beq_self_eq_true, if_true]
    exact ih x

/-- TrimRight removes every trailing comma, not only one. -/
theorem trimRightComma_append_replicate : ∀ (s : List Char) (k : Nat),
    trimRightComma (s ++ List.replicate k ',') = trimRightComma s := by
  intro s k
  unfold trimRightComma
  rw [List.reverse_append, List.reverse_replicate, dropWhile_comma_replicate]

/-- C7 amended: the decoder strips all trailing separators before
splitting, so appending any number of trailing commas never changes the
decode; in particular a raw string ending in two commas such as
0:450nm:10.2W,, decodes successfully instead of failing. -/
theorem trailing_separator_amended :
    (∀ (s : List Char) (k : Nat),
      decodeWavelengthList (s ++ List.replicate k ',') = decodeWavelengthList s)
    ∧ decodeWavelengthList (str "0:450nm:10.2W,,") =
        .ok [⟨0, str "450nm", str "10.2W"⟩] := by
  constructor
  · intro s k
    rw [decodeWavelengthList, decodeWavelengthList, trimRightComma_append_replicate]
  · rfl

/-- Character of a single decimal digit. -/
theorem digitChar_toNat : ∀ r : Nat, r < 10 → (Char.ofNat (48 + r)).toNat = 48 + r := by
  intro r h
  interval_cases r <;> rfl

/-- Every character of a decimal rendering is a digit character. -/
theorem decDigitsAux_mem_toNat : ∀ (fuel n : Nat) (c : Char),
    c ∈ decDigitsAux fuel n → 48 ≤ c.toNat ∧ c.toNat ≤ 57 := by
  intro fuel
  induction fuel with
  | zero =>
    intro n c h
    simp [decDigitsAux] at h
  | succ f ih =>
    intro n c h
    rw [decDigitsAux] at h
    by_cases hn : n < 10
    · rw [if_pos hn] at h
      have hc := List.mem_singleton.mp h
      subst hc
      have hd := digitChar_toNat n hn
      omega
    · rw [if_neg hn] at h
      rcases List.mem_append.mp h with h | h
      · exact ih (n / 10) c h
      · have hc := List.mem_singleton.mp h
        subst hc
        have h10 : n % 10 < 10 := Nat.mod_lt _ (by omega)
        have hd := digitChar_toNat (n % 10) h10
        omega

/-- A decimal rendering with positive fuel is never empty. -/
theorem decDigitsAux_ne_nil : ∀ (f n : Nat), decDigitsAux (f + 1) n ≠ [] := by
  intro f n
  rw [decDigitsAux]
  by_cases hn : n < 10
  · rw [if_pos hn]
    simp
  · rw [if_neg hn]
    simp

/-- The digit-run parser distributes over list append. -/
theorem parseDigitsAux_append : ∀ (l1 l2 : List Char) (acc : Nat),
    parseDigitsAux acc (l1 ++ l2) =
      (parseDigitsAux acc l1).bind (fun v => parseDigitsAux v l2) := by
  intro l1
  induction l1 with
  | nil =>
    intro l2 acc
    rfl
  | cons c t ih =>
    intro l2 acc
    rw [List.cons_append]
    simp only [parseDigitsAux]
    by_cases h : 48 ≤ c.toNat ∧ c.toNat ≤ 57
    · rw [if_pos h, if_pos h, ih]
    · rw [if_neg h, if_neg h]
      rfl

/-- Parsing the decimal rendering of `n` appends `n` to the accumulated
value shifted by the number of rendered digits. -/
theorem parseDigitsAux_decDigitsAux : ∀ (fuel n acc : Nat), n < fuel →
    parseDigitsAux acc (decDigitsAux fuel n) =
      some (acc * 10 ^ (decDigitsAux fuel n).length + n) := by
  intro fuel
  induction fuel with
  | zero =>
    intro n acc h
    exact absurd h (Nat.not_lt_zero n)
  | succ f ih =>
    intro n acc hn1
    rw [decDigitsAux]
    by_cases hn : n < 10
    · rw [if_pos hn]
      have hd := digitChar_toNat n hn
      simp only [parseDigitsAux]
      rw [if_pos (by omega)]
      simp only [List.length_singleton, pow_one]
      refine congrArg some ?_
      omega
    · rw [if_neg hn]
      have hrec : n / 10 < f := by
        have h1 : n / 10 < n := Nat.div_lt_self (by omega) (by omega)
        omega
      rw [parseDigitsAux_append, ih (n / 10) acc hrec]
      simp only [Option.some_bind]
      have h10 : n % 10 < 10 := Nat.mod_lt _ (by omega)
      have hd := digitChar_toNat (n % 10) h10
      simp only [parseDigitsAux]
      rw [if_pos (by omega)]
      refine congrArg some ?_
      rw [List.length_append, List.length_singleton]
      have hB : acc * 10 ^ ((decDigitsAux f (n / 10)).length + 1) =
          acc * 10 ^ (decDigitsAux f (n / 10)).length * 10 := by
        ring
      omega

/-- Parsing the decimal rendering of `n` from a zero accumulator gives `n`. -/
theorem parseDigits_decDigits : ∀ n : Nat, parseDigitsAux 0 (decDigits n) = some n := by
  intro n
  rw [decDigits, parseDigitsAux_decDigitsAux (n + 1) n 0 (by omega)]
  simp

/-- The decimal rendering of a natural number is never empty. -/
theorem decDigits_ne_nil : ∀ n : Nat, decDigits n ≠ [] := by
  intro n
  exact decDigitsAux_ne_nil n n

/-- Reduction of the sign-aware digit parser once the digit run is known. -/
theorem goAtoiFromDigits_parsed : ∀ (neg : Bool) (c : Char) (rest : List Char) (v : Nat),
    parseDigitsAux 0 (c :: rest) = some v →
    goAtoiFromDigits neg (c :: rest) =
      if neg then (if v ≤ 2 ^ 63 then .ok (-(v : Int)) else .error "value out of range")
      else (if v < 2 ^ 63 then .ok (v : Int) else .error "value out of range") := by
  intro neg c rest v h
  simp only [goAtoiFromDigits, h]

/-- Atoi round trip: parsing the decimal rendering of any int64 value
recovers it. -/
theorem goAtoi_intRender : ∀ n : Int, -(2 ^ 63) ≤ n → n < 2 ^ 63 →
    goAtoi (intRender n) = .ok n := by
  intro n h1 h2
  by_cases hn : n < 0
  · rw [intRender, if_pos hn]
    cases hd : decDigits (-n).toNat with
    | nil => exact absurd hd (decDigits_ne_nil _)
    | cons c rest =>
      have hparse : parseDigitsAux 0 (c :: rest) = some (-n).toNat := by
        rw [← hd]
        exact parseDigits_decDigits _
      simp only [goAtoi, if_true]
      rw [goAtoiFromDigits_parsed true c rest (-n).toNat hparse]
      rw [if_pos rfl, if_pos (by omega)]
      have hcast : (((-n).toNat : Int)) = -n := Int.toNat_of_nonneg (by omega)
      rw [hcast, neg_neg]
  · rw [intRender, if_neg hn]
    cases hd : decDigits n.toNat with
    | nil => exact absurd hd (decDigits_ne_nil _)
    | cons c rest =>
      have hparse : parseDigitsAux 0 (c :: rest) = some n.toNat := by
        rw [← hd]
        exact parseDigits_decDigits _
      have hmem : c ∈ decDigitsAux (n.toNat + 1) n.toNat := by
        rw [← decDigits, hd]
        exact List.mem_cons_self c rest
      have hbounds := decDigitsAux_mem_toNat (n.toNat + 1) n.toNat c hmem
      have hne1 : ¬(c = '-') := by
        intro hc
        have h45 : c.toNat = 45 := by
          rw [hc]
          rfl
        omega
      have hne2 : ¬(c = '+') := by
        intro hc
        have h43 : c.toNat = 43 := by
          rw [hc]
          rfl
        omega
      simp only [goAtoi]
      rw [if_neg hne1, if_neg hne2, goAtoiFromDigits_parsed false c rest n.toNat hparse]
      rw [if_neg (by simp), if_pos (by omega)]
      have hcast : ((n.toNat : Int)) = n := Int.toNat_of_nonneg (by omega)
      rw [hcast]

/-- Split never yields an empty segment list. -/
theorem splitGo_ne_nil : ∀ (sep : Char) (s : List Char), splitGo sep s ≠ [] := by
  intro sep s
  induction s with
  | nil => simp [splitGo]
  | cons c rest ih =>
    rw [splitGo]
    cases h : splitGo sep rest with
    | nil => simp
    | cons a t =>
      dsimp only
      split <;> simp

/-- Splitting a list free of the separator yields that single segment. -/
theorem splitGo_not_mem : ∀ (sep : Char) (s : List Char), sep ∉ s → splitGo sep s = [s] := by
  intro sep s
  induction s with
  | nil =>
    intro _
    rfl
  | cons c t ih =>
    intro h
    have hne : ¬(c = sep) := by
      intro hc
      exact h (by rw [hc]; exact List.mem_cons_self sep t)
    have ht : sep ∉ t := fun hc => h (List.mem_cons_of_mem c hc)
    rw [splitGo, ih ht]
    dsimp only
    rw [if_neg hne]

/-- Splitting past a separator-free prefix peels off that prefix. -/
theorem splitGo_append_sep : ∀ (sep : Char) (a b : List Char), sep ∉ a →
    splitGo sep (a ++ sep :: b) = a :: splitGo sep b := by
  intro sep a
  induction a with
  | nil =>
    intro b _
    rw [List.nil_append, splitGo]
    cases h : splitGo sep b with
    | nil => exact absurd h (splitGo_ne_nil sep b)
    | cons seg segs =>
      dsimp only
      rw [if_pos rfl]
  | cons c t ih =>
    intro b h
    have hne : ¬(c = sep) := by
      intro hc
      exact h (by rw [hc]; exact List.mem_cons_self sep t)
    have ht : sep ∉ t := fun hc => h (List.mem_cons_of_mem c hc)
    rw [List.cons_append, splitGo, ih b ht]
    dsimp only
    rw [if_neg hne]

/-- A comma-free list is unchanged by the trailing-comma trim. -/
theorem trimRightComma_no_comma : ∀ s : List Char, ',' ∉ s → trimRightComma s = s := by
  intro s h
  unfold trimRightComma
  cases hrev : s.reverse with
  | nil =>
    have hs : s = [] := by
      have := congrArg List.reverse hrev
      simpa using this
    rw [hs]
    rfl
  | cons c t =>
    have hcmem : c ∈ s := by
      rw [← List.mem_reverse, hrev]
      exact List.mem_cons_self c t
    have hne : ¬(c == ',') = true := by
      simp only [beq_iff_eq]
      intro hc
      exact h (hc ▸ hcmem)
    rw [List.dropWhile_cons, if_neg hne, ← hrev, List.reverse_reverse]

/-- Characters of an int rendering are the minus sign or decimal digits. -/
theorem intRender_mem_toNat : ∀ (n : Int) (c : Char), c ∈ intRender n →
    c.toNat = 45 ∨ (48 ≤ c.toNat ∧ c.toNat ≤ 57) := by
  intro n c h
  rw [intRender] at h
  by_cases hn : n < 0
  · rw [if_pos hn] at h
    rcases List.mem_cons.mp h with he | hm
    · left
      rw [he]
      rfl
    · right
      exact decDigitsAux_mem_toNat _ _ c hm
  · rw [if_neg hn] at h
    right
    exact decDigitsAux_mem_toNat _ _ c h

/-- An int rendering never contains a colon. -/
theorem colon_not_mem_intRender : ∀ n : Int, ':' ∉ intRender n := by
  intro n h
  have hb := intRender_mem_toNat n ':' h
  have hc : Char.toNat ':' = 58 := rfl
  omega

/-- An int rendering never contains a comma. -/
theorem comma_not_mem_intRender : ∀ n : Int, ',' ∉ intRender n := by
  intro n h
  have hb := intRender_mem_toNat n ',' h
  have hc : Char.toNat ',' = 44 := rfl
  omega

/-- Decoding a single comma-free three-field segment reduces to Atoi on its
first field. -/
theorem decodeWavelengthList_single : ∀ (f w p : List Char),
    ':' ∉ f → ',' ∉ f → ':' ∉ w → ',' ∉ w → ':' ∉ p → ',' ∉ p →
    decodeWavelengthList (f ++ ':' :: (w ++ ':' :: p)) =
      match goAtoi f with
      | .error e => .error e
      | .ok n => .ok [⟨(n % 256).toNat, w, p⟩] := by
  intro f w p hf1 hf2 hw1 hw2 hp1 hp2
  have hcm : ',' ∉ f ++ ':' :: (w ++ ':' :: p) := by
    intro hc
    rcases List.mem_append.mp hc with h | h
    · exact hf2 h
    · rcases List.mem_cons.mp h with h | h
      · exact absurd h (by decide)
      · rcases List.mem_append.mp h with h | h
        · exact hw2 h
        · rcases List.mem_cons.mp h with h | h
          · exact absurd h (by decide)
          · exact hp2 h
  have hsplit3 : splitGo ':' (f ++ ':' :: (w ++ ':' :: p)) = [f, w, p] := by
    rw [splitGo_append_sep ':' f (w ++ ':' :: p) hf1,
      splitGo_append_sep ':' w p hw1, splitGo_not_mem ':' p hp1]
  have hseg : parseSegment (f ++ ':' :: (w ++ ':' :: p)) =
      match goAtoi f with
      | .error e => .error e
      | .ok n => .ok ⟨(n % 256).toNat, w, p⟩ := by
    unfold parseSegment
    rw [hsplit3]
    rw [if_pos (by simp)]
    rfl
  rw [decodeWavelengthList, trimRightComma_no_comma _ hcm,
    splitGo_not_mem ',' _ hcm]
  cases hg : goAtoi f with
  | error e => simp only [decodeSegments, hseg, hg]
  | ok n => simp only [decodeSegments, hseg, hg]

/-- C8 amended: the first field of a segment is parsed by strconv.Atoi as a
signed integer, so any int64 literal is accepted, the stored channel number
is the parsed value truncated to a uint8 (value mod 256, hence -1 stores
255 instead of failing), and only a field Atoi rejects, such as non-numeric
text, makes the decode fail with Atoi's error. -/
theorem channel_parse_amended : ∀ (w p : List Char),
    ':' ∉ w → ',' ∉ w → ':' ∉ p → ',' ∉ p →
    (∀ n : Int, -(2 ^ 63) ≤ n → n < 2 ^ 63 →
      decodeWavelengthList (intRender n ++ ':' :: (w ++ ':' :: p)) =
        .ok [⟨(n % 256).toNat, w, p⟩])
    ∧ ∀ (f : List Char) (e : String), ':' ∉ f → ',' ∉ f → goAtoi f = .error e →
      decodeWavelengthList (f ++ ':' :: (w ++ ':' :: p)) = .error e := by
  intro w p hw1 hw2 hp1 hp2
  constructor
  · intro n h1 h2
    rw [decodeWavelengthList_single (intRender n) w p (colon_not_mem_intRender n)
      (comma_not_mem_intRender n) hw1 hw2 hp1 hp2, goAtoi_intRender n h1 h2]
  · intro f e hf1 hf2 hge
    rw [decodeWavelengthList_single f w p hf1 hf2 hw1 hw2 hp1 hp2, hge]

/-- Witness for C8 amended: channel 300 wraps to 44 and a non-numeric
channel field fails with the Atoi syntax error. -/
theorem channel_parse_amended_witness :
    decodeWavelengthList (intRender 300 ++ ':' :: (str "450nm" ++ ':' :: str "10.2W")) =
      .ok [⟨44, str "450nm", str "10.2W"⟩]
    ∧ decodeWavelengthList (str "x" ++ ':' :: (str "450nm" ++ ':' :: str "10.2W")) =
      .error "invalid syntax" := by
  have h := channel_parse_amended (str "450nm") (str "10.2W")
    (by decide) (by decide) (by decide) (by decide)
  exact ⟨h.1 300 (by norm_num) (by norm_num),
    h.2 (str "x") "invalid syntax" (by decide) (by decide) (by rfl)⟩

/-- Unrolling the colon-prefixing fold of the SetIntensities loop. -/
theorem foldl_colon_append : ∀ (t : List Int) (acc : List Char),
    t.foldl (fun buf y => buf ++ ':' :: intRender y) acc = acc ++ tailJoinColon t := by
  intro t
  induction t with
  | nil =>
    intro acc
    simp [tailJoinColon]
  | cons y r ih =>
    intro acc
    rw [List.foldl_cons, ih, tailJoinColon, List.append_assoc]

/-- The spec-side colon join of rendered values agrees with the rendered
head followed by the colon-prefixed tail. -/
theorem colonJoinSpec_map : ∀ (x : Int) (rest : List Int),
    colonJoinSpec ((x :: rest).map intRender) = intRender x ++ tailJoinColon rest := by
  intro x rest
  induction rest generalizing x with
  | nil =>
    simp [colonJoinSpec, tailJoinColon]
  | cons y r ih =>
    rw [List.map_cons, List.map_cons, colonJoinSpec, ← List.map_cons, ih y, tailJoinColon,
      List.cons_append]

/-- The query-building loop of SetIntensities produces exactly the
colon-separated join of the decimal renderings. -/
theorem encodeIntensities_eq_spec : ∀ ints : List Int,
    encodeIntensities ints = colonJoinSpec (ints.map intRender) := by
  intro ints
  cases ints with
  | nil => rfl
  | cons x rest =>
    rw [encodeIntensities, colonJoinSpec_map, foldl_colon_append]

/-- C9 counterexample: the URL host built by SetIntensities is the bare
device address with no port separator at all, not the claimed
address:50630 authority. -/
theorem setIntensities_port_counterexample :
    (setIntensitiesRequest (str "192.168.1.8") [1, 2, 3, 4]).host = str "192.168.1.8"
    ∧ ':' ∉ (setIntensitiesRequest (str "192.168.1.8") [1, 2, 3, 4]).host
    ∧ str "192.168.1.8" ≠ str "192.168.1.8:50630" := by
  exact ⟨rfl, by decide, by decide⟩

/-- C9 amended: SetIntensities issues a GET for path intensity.cgi on the
bare device address (default HTTP port, not the control port), with the
single query parameter int carrying the colon-separated decimal rendering
of the intensities, and its outcome is success exactly on status 200. -/
theorem setIntensities_amended : ∀ (addr : List Char) (ints : List Int) (status : Nat),
    (setIntensitiesRequest addr ints).method = str "GET"
    ∧ (setIntensitiesRequest addr ints).host = addr
    ∧ (setIntensitiesRequest addr ints).path = str "intensity.cgi"
    ∧ (setIntensitiesRequest addr ints).query =
        [(str "int", colonJoinSpec (ints.map intRender))]
    ∧ encodeIntensities [1, 2, 3, 4] = str "1:2:3:4"
    ∧ (setIntensitiesOutcome status = .ok () ↔ status = 200) := by
  intro addr ints status
  refine ⟨rfl, rfl, rfl, ?_, by rfl, ?_⟩
  · show [(str "int", encodeIntensities ints)] = _
    rw [encodeIntensities_eq_spec]
  · unfold setIntensitiesOutcome
    by_cases h : status = 200
    · simp [h]
    · simp [h]

/-- C10: the empty wavelengths text yields one empty segment whose colon
split has one field instead of three, so the wavelength-list decode and
with it the surrounding Diagnostic decode fail. -/
theorem empty_wavelengths_fails :
    splitGo ',' (trimRightComma (str "")) = [[]]
    ∧ (splitGo ':' (str "")).length = 1
    ∧ decodeWavelengthList (str "") = .error "invalid WavelengthList"
    ∧ decodeDiagnostic (str "") = .error "invalid WavelengthList" := by
  exact ⟨rfl, rfl, rfl, rfl⟩

end Helio
